import Mathlib

/-!
Shallow embedding of the prediction-market / ledger / withdrawal core of the
TeleSwapX server (src/unnamed/part_000).

Modelling conventions:
* JavaScript numbers are modelled as exact rationals (`ℚ`); IEEE-754 rounding
  drift is out of scope.  A value that may be `NaN` (the result of a failed
  `Number(...)` / `parseFloat(...)` coercion) is modelled as `Option ℚ` with
  `none` standing for `NaN`; the JS coercion `Number(x) || 0` becomes
  `numberOrZero`.
* The global `Map`s/arrays (`ledger`, `withdrawalLog`, `withdrawQueue`,
  `markets`) become explicit state values threaded through the functions.
* The external price index (`computeMarketCap` / `fetchTonPriceUsd`) is an
  external collaborator; its result is passed in as `Option ℚ` (`none` =
  fetch failure or non-finite result).  `computeTwapCap` embeds the local
  fallback logic of src lines 445-453.
* The optional PostgreSQL mirroring inside `credit`/`debit` only duplicates
  the in-memory write and is not part of the observable core state.
-/

namespace CryptoBot

/-! ### Ledger (src lines 377-426) -/

abbrev UserId := String

/-- The global `ledger` Map, `userId → { balanceTon }`, as an association
list.  `Map.set` updates the first matching key or appends a new entry. -/
abbrev Ledger := List (UserId × ℚ)

/-- `ledger.get(uid)` -/
def mapGet : Ledger → UserId → Option ℚ
  | [], _ => none
  | (k, v) :: rest, u => if k = u then some v else mapGet rest u

/-- `ledger.set(uid, { balanceTon: v })` -/
def mapSet : Ledger → UserId → ℚ → Ledger
  | [], u, v => [(u, v)]
  | (k, w) :: rest, u, v =>
    if k = u then (u, v) :: rest else (k, w) :: mapSet rest u v

/-- `getBal(userId)` (src 398-401): stored balance, or 0 for unknown users. -/
def getBal (l : Ledger) (u : UserId) : ℚ :=
  (mapGet l u).getD 0

/-- The JS coercion `Number(x) || 0`: `NaN` (modelled `none`) becomes 0,
a numeric value is kept (0 stays 0). -/
def numberOrZero : Option ℚ → ℚ
  | none => 0
  | some q => q

/-- `credit(userId, ton)` (src 403-412).  Note: there is no validation at
all; the coerced amount is simply added to the current balance. -/
def credit (l : Ledger) (u : UserId) (ton : Option ℚ) : Ledger :=
  mapSet l u (getBal l u + numberOrZero ton)

inductive DebitErr where
  | invalidAmount
  | insufficientBalance
  deriving DecidableEq

/-- `debit(userId, ton)` (src 414-426).  A thrown error is modelled as
`some err` in the first component; the ledger is returned unchanged in that
case (the source throws before any mutation). -/
def debit (l : Ledger) (u : UserId) (ton : Option ℚ) : Option DebitErr × Ledger :=
  let amount := numberOrZero ton
  if amount ≤ 0 then (some .invalidAmount, l)
  else if getBal l u < amount then (some .insufficientBalance, l)
  else (none, mapSet l u (getBal l u - amount))

/-- Total of all balances stored in the ledger (used to express
"sum of payouts" as the change of the total ledger holdings). -/
def ledgerSum : Ledger → ℚ
  | [] => 0
  | (_, v) :: rest => v + ledgerSum rest

/-! ### Prediction markets (src lines 428-537, 1040-1073) -/

inductive Direction where
  | above
  | below
  deriving DecidableEq

inductive Winner where
  | draw
  | above
  | below
  deriving DecidableEq

inductive MStatus where
  | opened
  | settled
  deriving DecidableEq

structure Pools where
  above : ℚ
  below : ℚ
  deriving DecidableEq

structure Bet where
  id : Nat
  userId : UserId
  direction : Direction
  stakeTon : ℚ
  deriving DecidableEq

structure Market where
  id : Nat
  asset : String
  expiry : ℤ
  strike : ℚ
  entryCap : ℚ
  pools : Pools
  bets : List Bet
  status : MStatus
  openedAt : ℤ
  settleCap : Option ℚ
  feeCollected : Option ℚ
  deriving DecidableEq

/-- `computeTwapCap(asset)` (src 445-453): the externally fetched cap is
`fetched` (`none` = the fetch failed or produced a non-finite value);
`if (capTon && isFinite(capTon)) return capTon; return 0`. -/
def computeTwapCap (fetched : Option ℚ) : ℚ :=
  match fetched with
  | some capTon => if capTon ≠ 0 then capTon else 0
  | none => 0

/-- The market object built by `getOrCreateMarket` (src 473-483). -/
def newMarket (id : Nat) (asset : String) (expiry now : ℤ) (fetched : Option ℚ) : Market :=
  { id := id
    asset := asset
    expiry := expiry
    strike := computeTwapCap fetched
    entryCap := computeTwapCap fetched
    pools := ⟨0, 0⟩
    bets := []
    status := .opened
    openedAt := now
    settleCap := none
    feeCollected := none }

/-- `m.asset === asset && m.expiry === expiry && m.status === 'open'` -/
def marketKeyMatches (asset : String) (expiry : ℤ) (m : Market) : Bool :=
  m.asset == asset && m.expiry == expiry && m.status == .opened

/-- `getOrCreateMarket(asset, expiryMinutes)` (src 465-486), over the global
`markets` array and `nextMarketId` counter. -/
def getOrCreateMarket (ms : List Market) (nextId : Nat) (asset : String)
    (expiryMinutes now : ℤ) (fetched : Option ℚ) : Market × List Market × Nat :=
  let expiry := now + expiryMinutes * 60 * 1000
  match ms.find? (marketKeyMatches asset expiry) with
  | some m => (m, ms, nextId)
  | none =>
    let m := newMarket nextId asset expiry now fetched
    (m, ms ++ [m], nextId + 1)

/-- The bet-recording step of `POST /api/prediction/open` (src 1059-1066):
`market.bets.push(bet); market.pools[direction] += amount`. -/
def placeBet (m : Market) (b : Bet) : Market :=
  match b.direction with
  | .above =>
    { m with bets := m.bets ++ [b]
             pools := { m.pools with above := m.pools.above + b.stakeTon } }
  | .below =>
    { m with bets := m.bets ++ [b]
             pools := { m.pools with below := m.pools.below + b.stakeTon } }

/-- Outcome determination in `settleMarket` (src 503-512), with
`eps = 0.002`. -/
def settleWinner (strike settleCap : ℚ) : Winner :=
  if strike = 0 then .draw
  else if |settleCap - strike| / strike < 2 / 1000 then .draw
  else if strike < settleCap then .above else .below

/-- `total = A + B` (src 513-515). -/
def marketTotal (m : Market) : ℚ :=
  m.pools.above + m.pools.below

/-- `fee = total * feeRate` with the hard-coded `feeRate = 0.02`
(src 516-517). -/
def settleFeeOf (m : Market) : ℚ :=
  marketTotal m * (2 / 100)

/-- `distributable = total - fee` (src 518). -/
def distributableOf (m : Market) : ℚ :=
  marketTotal m - settleFeeOf m

/-- `winPool = winner === 'above' ? A : B` (src 525). -/
def winPoolOf (m : Market) (w : Winner) : ℚ :=
  if w = .above then m.pools.above else m.pools.below

/-- `perTon = winPool > 0 ? distributable / winPool : 0` (src 526). -/
def perTonOf (m : Market) (w : Winner) : ℚ :=
  if 0 < winPoolOf m w then distributableOf m / winPoolOf m w else 0

/-- `b.direction === winner` (src 528); bet directions and the winner are
both stored as the strings `'above'` / `'below'` in the source. -/
def Direction.winnerMatches : Direction → Winner → Bool
  | .above, .above => true
  | .below, .below => true
  | _, _ => false

/-- The draw loop of `settleMarket` (src 521-523):
`for (const b of market.bets) credit(b.userId, b.stakeTon)`. -/
def refundBets : Ledger → List Bet → Ledger
  | l, [] => l
  | l, b :: bs => refundBets (credit l b.userId (some b.stakeTon)) bs

/-- The payout loop of `settleMarket` (src 527-531): winners are credited
`b.stakeTon * perTon`, everyone else is skipped. -/
def payWinners (w : Winner) (perTon : ℚ) : Ledger → List Bet → Ledger
  | l, [] => l
  | l, b :: bs =>
    payWinners w perTon
      (if b.direction.winnerMatches w then credit l b.userId (some (b.stakeTon * perTon)) else l) bs

/-- `settleMarket(market)` (src 498-537).  `fetched` is the external cap
fetch used by `computeTwapCap`; the ledger is the global `ledger` Map. -/
def settleMarket (l : Ledger) (m : Market) (fetched : Option ℚ) : Ledger × Market :=
  if m.status ≠ .opened then (l, m)
  else
    let settleCap := computeTwapCap fetched
    let winner := settleWinner m.strike settleCap
    let l' :=
      if winner = .draw then refundBets l m.bets
      else payWinners winner (perTonOf m winner) l m.bets
    (l', { m with status := .settled
                  settleCap := some settleCap
                  feeCollected := some (settleFeeOf m) })

/-! ### Stake sums and the market invariant -/

/-- `Σ bet.stakeTon` over a bet list. -/
def sumStakes : List Bet → ℚ
  | [] => 0
  | b :: bs => b.stakeTon + sumStakes bs

/-- Sum of the stakes of the bets on one side. -/
def sumStakesDir (d : Direction) : List Bet → ℚ
  | [] => 0
  | b :: bs => (if b.direction = d then b.stakeTon else 0) + sumStakesDir d bs

/-- Sum of the stakes of the bets matching the winner string. -/
def sumStakesWin (w : Winner) : List Bet → ℚ
  | [] => 0
  | b :: bs => (if b.direction.winnerMatches w then b.stakeTon else 0) + sumStakesWin w bs

/-- Sum of the stakes of one user's bets. -/
def userStakes (u : UserId) : List Bet → ℚ
  | [] => 0
  | b :: bs => (if b.userId = u then b.stakeTon else 0) + userStakes u bs

/-- Sum of the stakes of one user's winning bets. -/
def userWinStakes (w : Winner) (u : UserId) : List Bet → ℚ
  | [] => 0
  | b :: bs =>
    (if b.userId = u ∧ b.direction.winnerMatches w then b.stakeTon else 0) + userWinStakes w u bs

/-- Each pool equals the sum of the stakes on its side. -/
def PoolsMatch (m : Market) : Prop :=
  m.pools.above = sumStakesDir .above m.bets ∧ m.pools.below = sumStakesDir .below m.bets

/-- Market states reachable through the operations of the source: creation
(`getOrCreateMarket`), bet placement (`/api/prediction/open`, whose
validation enforces `amount > 0` and which only ever receives an open
market from `getOrCreateMarket`), and settlement (`settleMarket`). -/
inductive MarketReach : Market → Prop where
  | created (id : Nat) (asset : String) (expiry now : ℤ) (fetched : Option ℚ) :
      MarketReach (newMarket id asset expiry now fetched)
  | bet (m : Market) (b : Bet) (hm : MarketReach m) (hop : m.status = .opened)
      (hpos : 0 < b.stakeTon) : MarketReach (placeBet m b)
  | settle (m : Market) (l : Ledger) (fetched : Option ℚ) (hm : MarketReach m) :
      MarketReach (settleMarket l m fetched).2

/-! ### Withdrawals (src lines 124-176, 1326-1418, 1132-1154) -/

structure WEntry where
  ts : ℤ
  amountTon : ℚ
  deriving DecidableEq

inductive WStatus where
  | pending
  | completed
  deriving DecidableEq

structure WReq where
  id : String
  userId : UserId
  amountTon : ℚ
  feeTon : ℚ
  netTon : ℚ
  toAddr : String
  status : WStatus
  requestedAt : ℤ
  txHash : Option String
  completedAt : Option ℤ
  deriving DecidableEq

/-- WITHDRAW_FEE_RATE / WITHDRAW_LIMIT_DAILY / WITHDRAW_LIMIT_MONTHLY
(src 124-126), environment-overridable. -/
structure WConfig where
  feeRate : ℚ
  dailyLimit : ℚ
  monthlyLimit : ℚ

/-- The default configuration: 5% fee, 500 TON daily, 3000 TON monthly. -/
def defaultConfig : WConfig :=
  ⟨5 / 100, 500, 3000⟩

def dayMs : ℤ := 24 * 60 * 60 * 1000

def monthMs : ℤ := 30 * dayMs

/-- The loop body of `getWithdrawUsage` (src 164-174) over one user's log
entries, producing `(dailyUsed, monthlyUsed)`. -/
def usageSums (now : ℤ) : List WEntry → ℚ × ℚ
  | [] => (0, 0)
  | e :: rest =>
    let acc := usageSums now rest
    let diff := now - e.ts
    if diff < monthMs then
      if diff < dayMs then (acc.1 + e.amountTon, acc.2 + e.amountTon)
      else (acc.1, acc.2 + e.amountTon)
    else acc

/-- `getWithdrawUsage(userId)` (src 158-176): `{ dailyUsed, monthlyUsed }`
from the `withdrawalLog` Map (defaulting to the empty history). -/
def getWithdrawUsage (wlog : UserId → List WEntry) (u : UserId) (now : ℤ) : ℚ × ℚ :=
  usageSums now (wlog u)

/-- `` `wd_${Date.now().toString(16)}` `` (src 1376). -/
def reqIdOf (now : ℤ) : String :=
  "wd_" ++ (Nat.toDigits 16 now.toNat).asString

/-- The global mutable state touched by the withdrawal endpoints: the
ledger, the `withdrawalLog` Map and the `withdrawQueue` array. -/
structure WState where
  ledger : Ledger
  wlog : UserId → List WEntry
  queue : List WReq

inductive WithdrawErr where
  | invalidRequest
  | dailyLimitExceeded (limit used remaining : ℚ)
  | monthlyLimitExceeded (limit used remaining : ℚ)
  | ledgerError (e : DebitErr)
  deriving DecidableEq

structure WithdrawOk where
  requestId : String
  amountTon : ℚ
  feeTon : ℚ
  netTon : ℚ
  dailyUsed : ℚ
  dailyRemaining : ℚ
  monthlyUsed : ℚ
  monthlyRemaining : ℚ
  deriving DecidableEq

/-- `POST /api/wallet/withdraw` (src 1332-1418).  `amountTon` is the
`Number(...)`-coerced body field (`none` = `NaN`); the validation
`!userId || !to || !amt || amt <= 0` rejects empty strings, `NaN`, zero and
negative amounts.  A `debit` throw is caught by the handler's `try/catch`
and surfaced as a 400 response (`ledgerError`), with no state change. -/
def walletWithdraw (cfg : WConfig) (s : WState) (userId toAddr : String)
    (amountTon : Option ℚ) (now : ℤ) : Except WithdrawErr WithdrawOk × WState :=
  if userId = "" ∨ toAddr = "" ∨ amountTon = none ∨ numberOrZero amountTon ≤ 0 then
    (.error .invalidRequest, s)
  else
    let amt := numberOrZero amountTon
    let usage := getWithdrawUsage s.wlog userId now
    let dailyUsed := usage.1
    let monthlyUsed := usage.2
    if cfg.dailyLimit < amt + dailyUsed then
      (.error (.dailyLimitExceeded cfg.dailyLimit dailyUsed (max 0 (cfg.dailyLimit - dailyUsed))), s)
    else if cfg.monthlyLimit < amt + monthlyUsed then
      (.error (.monthlyLimitExceeded cfg.monthlyLimit monthlyUsed
        (max 0 (cfg.monthlyLimit - monthlyUsed))), s)
    else
      let feeTon := amt * cfg.feeRate
      let netTon := amt - feeTon
      match debit s.ledger userId (some amt) with
      | (some e, _) => (.error (.ledgerError e), s)
      | (none, l') =>
        let entry : WEntry := ⟨now, amt⟩
        let wlog' := fun x => if x = userId then s.wlog userId ++ [entry] else s.wlog x
        let requestId := reqIdOf now
        let req : WReq := ⟨requestId, userId, amt, feeTon, netTon, toAddr, .pending, now, none, none⟩
        (.ok ⟨requestId, amt, feeTon, netTon,
              dailyUsed + amt, max 0 (cfg.dailyLimit - (dailyUsed + amt)),
              monthlyUsed + amt, max 0 (cfg.monthlyLimit - (monthlyUsed + amt))⟩,
         ⟨l', wlog', s.queue ++ [req]⟩)

inductive ProcessResult where
  | forbidden
  | notFound
  | ok (w : WReq)
  deriving DecidableEq

/-- The queue scan and mutation of the first (and only reachable)
`POST /api/admin/withdrawals/process` handler (src 1138-1151):
`findIndex` locates the first entry with the given id; an already-completed
entry is returned as a success with no change; a pending entry is marked
completed in place. -/
def processQueue (queue : List WReq) (id : String) (txHash : Option String)
    (now : ℤ) : ProcessResult × List WReq :=
  match queue with
  | [] => (.notFound, [])
  | w :: rest =>
    if w.id = id then
      if w.status = .completed then (.ok w, w :: rest)
      else
        let w' := { w with status := .completed, txHash := txHash, completedAt := some now }
        (.ok w', w' :: rest)
    else
      let pr := processQueue rest id txHash now
      (pr.1, w :: pr.2)

/-- `POST /api/admin/withdrawals/process` (src 1132-1154).  `authorized`
models the admin-secret check `ADMIN_SECRET && secret === ADMIN_SECRET`;
`txHash` is the body field after the `txHash || null` coercion (`none` =
absent/falsy).  The second handler for the same route (src 1444-1466) is
dead code: the dispatcher returns after the first matching route, so its
`'Withdrawal already processed'` failure is unreachable.  The ledger is
threaded through unchanged: the handler never touches it. -/
def processWithdrawal (authorized : Bool) (l : Ledger) (queue : List WReq)
    (id : String) (txHash : Option String) (now : ℤ) :
    ProcessResult × Ledger × List WReq :=
  if authorized then
    let pr := processQueue queue id txHash now
    (pr.1, l, pr.2)
  else (.forbidden, l, queue)

/-! ### Ledger lemmas -/

theorem mapGet_mapSet_self (l : Ledger) (u : UserId) (v : ℚ) :
    mapGet (mapSet l u v) u = some v := by
  induction l with
  | nil => simp [mapGet, mapSet]
  | cons kv rest ih =>
    obtain ⟨k, w⟩ := kv
    by_cases hk : k = u <;> simp [mapGet, mapSet, hk, ih]

theorem mapGet_mapSet_ne (l : Ledger) (u x : UserId) (v : ℚ) (hx : x ≠ u) :
    mapGet (mapSet l u v) x = mapGet l x := by
  have hu : ¬ u = x := fun h => hx h.symm
  induction l with
  | nil => simp [mapGet, mapSet, hu]
  | cons kv rest ih =>
    obtain ⟨k, w⟩ := kv
    by_cases hk : k = u
    · have h1 : ¬ k = x := by rw [hk]; exact hu
      simp [mapGet, mapSet, hk, hu, h1]
    · by_cases hkx : k = x <;> simp [mapGet, mapSet, hk, hkx, ih, hx]

theorem getBal_mapSet_self (l : Ledger) (u : UserId) (v : ℚ) :
    getBal (mapSet l u v) u = v := by
  simp [getBal, mapGet_mapSet_self]

theorem getBal_mapSet_ne (l : Ledger) (u x : UserId) (v : ℚ) (hx : x ≠ u) :
    getBal (mapSet l u v) x = getBal l x := by
  simp [getBal, mapGet_mapSet_ne l u x v hx]

theorem ledgerSum_mapSet (l : Ledger) (u : UserId) (v : ℚ) :
    ledgerSum (mapSet l u v) = ledgerSum l - getBal l u + v := by
  induction l with
  | nil => simp [ledgerSum, mapSet, getBal, mapGet]
  | cons kv rest ih =>
    obtain ⟨k, w⟩ := kv
    by_cases hk : k = u
    · subst hk
      simp [ledgerSum, mapSet, getBal, mapGet]
      ring
    · simp [ledgerSum, mapSet, getBal, mapGet, hk, ih]
      have : getBal rest u = (mapGet rest u).getD 0 := rfl
      rw [← this]
      ring

theorem getBal_credit_self (l : Ledger) (u : UserId) (t : Option ℚ) :
    getBal (credit l u t) u = getBal l u + numberOrZero t := by
  simp [credit, getBal_mapSet_self]

theorem getBal_credit_ne (l : Ledger) (u x : UserId) (t : Option ℚ) (hx : x ≠ u) :
    getBal (credit l u t) x = getBal l x := by
  simp [credit, getBal_mapSet_ne _ _ _ _ hx]

theorem ledgerSum_credit (l : Ledger) (u : UserId) (t : Option ℚ) :
    ledgerSum (credit l u t) = ledgerSum l + numberOrZero t := by
  simp [credit, ledgerSum_mapSet]
  ring

/-! ### Settlement fold lemmas -/

theorem ledgerSum_refundBets (bs : List Bet) (l : Ledger) :
    ledgerSum (refundBets l bs) = ledgerSum l + sumStakes bs := by
  induction bs generalizing l with
  | nil => simp [refundBets, sumStakes]
  | cons b rest ih =>
    simp [refundBets, sumStakes, ih, ledgerSum_credit, numberOrZero]
    ring

theorem getBal_refundBets (bs : List Bet) (l : Ledger) (u : UserId) :
    getBal (refundBets l bs) u = getBal l u + userStakes u bs := by
  induction bs generalizing l with
  | nil => simp [refundBets, userStakes]
  | cons b rest ih =>
    by_cases hu : b.userId = u
    · simp [refundBets, userStakes, hu, ih, getBal_credit_self, numberOrZero]
      ring
    · simp [refundBets, userStakes, hu, ih,
        getBal_credit_ne l b.userId u _ (fun h => hu h.symm)]

theorem ledgerSum_payWinners (w : Winner) (p : ℚ) (bs : List Bet) (l : Ledger) :
    ledgerSum (payWinners w p l bs) = ledgerSum l + sumStakesWin w bs * p := by
  induction bs generalizing l with
  | nil => simp [payWinners, sumStakesWin]
  | cons b rest ih =>
    by_cases hb : b.direction.winnerMatches w
    · simp [payWinners, sumStakesWin, hb, ih, ledgerSum_credit, numberOrZero]
      ring
    · simp [payWinners, sumStakesWin, hb, ih]

theorem getBal_payWinners (w : Winner) (p : ℚ) (bs : List Bet) (l : Ledger) (u : UserId) :
    getBal (payWinners w p l bs) u = getBal l u + userWinStakes w u bs * p := by
  induction bs generalizing l with
  | nil => simp [payWinners, userWinStakes]
  | cons b rest ih =>
    by_cases hb : b.direction.winnerMatches w
    · by_cases hu : b.userId = u
      · simp [payWinners, userWinStakes, hb, hu, ih, getBal_credit_self, numberOrZero]
        ring
      · simp [payWinners, userWinStakes, hb, hu, ih,
          getBal_credit_ne l b.userId u _ (fun h => hu h.symm)]
    · simp [payWinners, userWinStakes, hb, ih]

theorem sumStakesWin_nonneg (w : Winner) (bs : List Bet)
    (h : ∀ b ∈ bs, 0 ≤ b.stakeTon) : 0 ≤ sumStakesWin w bs := by
  induction bs with
  | nil => simp [sumStakesWin]
  | cons b rest ih =>
    have hb := h b (by simp)
    have hr := ih (fun x hx => h x (by simp [hx]))
    by_cases hm : b.direction.winnerMatches w <;> simp [sumStakesWin, hm] <;> positivity

theorem payWinners_of_sum_zero (w : Winner) (p : ℚ) (bs : List Bet) (l : Ledger)
    (hpos : ∀ b ∈ bs, 0 < b.stakeTon) (hz : sumStakesWin w bs = 0) :
    payWinners w p l bs = l := by
  induction bs generalizing l with
  | nil => simp [payWinners]
  | cons b rest ih =>
    have hrest : ∀ x ∈ rest, 0 < x.stakeTon := fun x hx => hpos x (by simp [hx])
    by_cases hm : b.direction.winnerMatches w
    · exfalso
      have hb := hpos b (by simp)
      have hr : 0 ≤ sumStakesWin w rest :=
        sumStakesWin_nonneg w rest (fun x hx => (hrest x hx).le)
      have : sumStakesWin w (b :: rest) = b.stakeTon + sumStakesWin w rest := by
        simp [sumStakesWin, hm]
      rw [this] at hz
      linarith
    · have : sumStakesWin w rest = 0 := by
        have : sumStakesWin w (b :: rest) = sumStakesWin w rest := by
          simp [sumStakesWin, hm]
        rw [← this, hz]
      simp [payWinners, hm, ih _ hrest this]

/-! ### Stake-sum arithmetic -/

theorem sumStakes_append (xs ys : List Bet) :
    sumStakes (xs ++ ys) = sumStakes xs + sumStakes ys := by
  induction xs with
  | nil => simp [sumStakes]
  | cons b rest ih => simp [sumStakes, ih]; ring

theorem sumStakesDir_append (d : Direction) (xs ys : List Bet) :
    sumStakesDir d (xs ++ ys) = sumStakesDir d xs + sumStakesDir d ys := by
  induction xs with
  | nil => simp [sumStakesDir]
  | cons b rest ih => simp [sumStakesDir, ih]; ring

theorem sumStakes_eq_dirs (bs : List Bet) :
    sumStakes bs = sumStakesDir .above bs + sumStakesDir .below bs := by
  induction bs with
  | nil => simp [sumStakes, sumStakesDir]
  | cons b rest ih =>
    cases hd : b.direction <;> simp [sumStakes, sumStakesDir, hd, ih] <;> ring

theorem sumStakesWin_eq_dir (bs : List Bet) :
    sumStakesWin .above bs = sumStakesDir .above bs
    ∧ sumStakesWin .below bs = sumStakesDir .below bs := by
  induction bs with
  | nil => simp [sumStakesWin, sumStakesDir]
  | cons b rest ih =>
    cases hd : b.direction <;>
      simp [sumStakesWin, sumStakesDir, hd, Direction.winnerMatches, ih.1, ih.2]

theorem sumStakesDir_nonneg (d : Direction) (bs : List Bet)
    (h : ∀ b ∈ bs, 0 ≤ b.stakeTon) : 0 ≤ sumStakesDir d bs := by
  induction bs with
  | nil => simp [sumStakesDir]
  | cons b rest ih =>
    have hb := h b (by simp)
    have hr := ih (fun x hx => h x (by simp [hx]))
    by_cases hd : b.direction = d <;> simp [sumStakesDir, hd] <;> positivity

/-! ### Market-shape lemmas -/

theorem placeBet_bets (m : Market) (b : Bet) :
    (placeBet m b).bets = m.bets ++ [b] := by
  cases hd : b.direction <;> simp [placeBet, hd]

theorem placeBet_status (m : Market) (b : Bet) :
    (placeBet m b).status = m.status := by
  cases hd : b.direction <;> simp [placeBet, hd]

theorem settleMarket_of_settled (l : Ledger) (m : Market) (f : Option ℚ)
    (h : m.status = .settled) : settleMarket l m f = (l, m) := by
  have : m.status ≠ .opened := by rw [h]; intro hc; cases hc
  simp [settleMarket, this]

theorem settleMarket_snd_status (l : Ledger) (m : Market) (f : Option ℚ) :
    (settleMarket l m f).2.status = .settled := by
  by_cases h : m.status = .opened
  · simp [settleMarket, h]
  · have hs : m.status = .settled := by cases hm : m.status <;> simp_all
    rw [settleMarket_of_settled l m f hs, hs]

theorem settleMarket_snd_pools (l : Ledger) (m : Market) (f : Option ℚ) :
    (settleMarket l m f).2.pools = m.pools := by
  by_cases h : m.status = .opened
  · simp [settleMarket, h]
  · simp [settleMarket, h]

theorem settleMarket_snd_bets (l : Ledger) (m : Market) (f : Option ℚ) :
    (settleMarket l m f).2.bets = m.bets := by
  by_cases h : m.status = .opened
  · simp [settleMarket, h]
  · simp [settleMarket, h]

theorem settleMarket_fst_draw (l : Ledger) (m : Market) (f : Option ℚ)
    (hop : m.status = .opened)
    (hw : settleWinner m.strike (computeTwapCap f) = .draw) :
    (settleMarket l m f).1 = refundBets l m.bets := by
  simp [settleMarket, hop, hw]

theorem settleMarket_fst_dir (l : Ledger) (m : Market) (f : Option ℚ) (w : Winner)
    (hop : m.status = .opened)
    (hw : settleWinner m.strike (computeTwapCap f) = w) (hnd : w ≠ .draw) :
    (settleMarket l m f).1 = payWinners w (perTonOf m w) l m.bets := by
  simp [settleMarket, hop, hw, hnd]

theorem settleMarket_snd_fee (l : Ledger) (m : Market) (f : Option ℚ)
    (hop : m.status = .opened) :
    (settleMarket l m f).2.feeCollected = some (settleFeeOf m) := by
  simp [settleMarket, hop]

/-- The per-direction strengthening of the pool invariant, together with
positivity of all recorded stakes, is preserved by every reachable step. -/
theorem marketReach_inv (m : Market) (h : MarketReach m) :
    PoolsMatch m ∧ ∀ b ∈ m.bets, 0 < b.stakeTon := by
  induction h with
  | created id asset expiry now fetched =>
    constructor
    · constructor <;> simp [newMarket, sumStakesDir]
    · simp [newMarket]
  | bet m b hm hop hpos ih =>
    obtain ⟨⟨ha, hb⟩, hstakes⟩ := ih
    constructor
    · constructor
      · cases hd : b.direction <;>
          simp [placeBet, hd, sumStakesDir_append, sumStakesDir, ha, hb]
      · cases hd : b.direction <;>
          simp [placeBet, hd, sumStakesDir_append, sumStakesDir, ha, hb]
    · intro x hx
      rw [placeBet_bets] at hx
      rcases List.mem_append.1 hx with hx | hx
      · exact hstakes x hx
      · simp at hx
        subst hx
        exact hpos
  | settle m l fetched hm ih =>
    obtain ⟨⟨ha, hb⟩, hstakes⟩ := ih
    refine ⟨⟨?_, ?_⟩, ?_⟩
    · rw [settleMarket_snd_pools, settleMarket_snd_bets]; exact ha
    · rw [settleMarket_snd_pools, settleMarket_snd_bets]; exact hb
    · rw [settleMarket_snd_bets]; exact hstakes

/-! ### Withdrawal-queue lemmas -/

theorem processQueue_notFound (q : List WReq) (id : String) (tx : Option String)
    (now : ℤ) (h : ∀ w ∈ q, w.id ≠ id) : processQueue q id tx now = (.notFound, q) := by
  induction q with
  | nil => simp [processQueue]
  | cons w rest ih =>
    have hw : ¬ w.id = id := h w (by simp)
    simp [processQueue, hw, ih (fun x hx => h x (by simp [hx]))]

theorem processQueue_found_completed (pre post : List WReq) (w : WReq) (id : String)
    (tx : Option String) (now : ℤ) (hpre : ∀ x ∈ pre, x.id ≠ id) (hid : w.id = id)
    (hst : w.status = .completed) :
    processQueue (pre ++ w :: post) id tx now = (.ok w, pre ++ w :: post) := by
  induction pre with
  | nil => simp [processQueue, hid, hst]
  | cons x rest ih =>
    have hx : ¬ x.id = id := hpre x (by simp)
    simp [processQueue, hx, ih (fun y hy => hpre y (by simp [hy]))]

theorem processQueue_found_pending (pre post : List WReq) (w : WReq) (id : String)
    (tx : Option String) (now : ℤ) (hpre : ∀ x ∈ pre, x.id ≠ id) (hid : w.id = id)
    (hst : w.status = .pending) :
    processQueue (pre ++ w :: post) id tx now =
      (.ok { w with status := .completed, txHash := tx, completedAt := some now },
       pre ++ { w with status := .completed, txHash := tx, completedAt := some now } :: post) := by
  have hst' : ¬ w.status = .completed := by rw [hst]; intro hc; cases hc
  induction pre with
  | nil => simp [processQueue, hid, hst']
  | cons x rest ih =>
    have hx : ¬ x.id = id := hpre x (by simp)
    simp [processQueue, hx, ih (fun y hy => hpre y (by simp [hy]))]

/-! ### Claim theorems -/

/-- C1: for every reachable market state the two pools sum to the total
stake over the market's bets: markets are created with empty pools and no
bets, each bet placement appends the bet and adds its stake to exactly one
pool, and settlement changes neither pools nor bets. -/
theorem market_pools_balance (m : Market) (h : MarketReach m) :
    m.pools.above + m.pools.below = sumStakes m.bets := by
  obtain ⟨⟨ha, hb⟩, _⟩ := marketReach_inv m h
  rw [ha, hb, sumStakes_eq_dirs]

theorem market_pools_balance_witness :
    (placeBet (newMarket 1 "GIFTS" 900000 0 (some 1000)) ⟨1, "u", .above, 30⟩).pools.above
      + (placeBet (newMarket 1 "GIFTS" 900000 0 (some 1000)) ⟨1, "u", .above, 30⟩).pools.below
      = sumStakes (placeBet (newMarket 1 "GIFTS" 900000 0 (some 1000)) ⟨1, "u", .above, 30⟩).bets :=
  market_pools_balance _
    (MarketReach.bet _ _ (MarketReach.created 1 "GIFTS" 900000 0 (some 1000)) rfl (by norm_num))

/-- C2: settling an open market on a directional outcome credits each
winning bettor their winning stakes times `distributable / winPool`
(`perTonOf`), so the total disbursed is at most `total * 0.98`, with
equality whenever `winPool > 0`; users holding only losing bets receive
nothing (their winning-stake total is 0). -/
theorem settle_directional_payout (l : Ledger) (m : Market) (f : Option ℚ) (w : Winner)
    (hop : m.status = .opened) (hmatch : PoolsMatch m)
    (hnn : ∀ b ∈ m.bets, 0 ≤ b.stakeTon)
    (hw : settleWinner m.strike (computeTwapCap f) = w) (hnd : w ≠ .draw) :
    (∀ u, getBal (settleMarket l m f).1 u
        = getBal l u + userWinStakes w u m.bets * perTonOf m w)
    ∧ ledgerSum (settleMarket l m f).1 - ledgerSum l ≤ marketTotal m * (98 / 100)
    ∧ (0 < winPoolOf m w →
        ledgerSum (settleMarket l m f).1 = ledgerSum l + marketTotal m * (98 / 100)) := by
  have hfst := settleMarket_fst_dir l m f w hop hw hnd
  have hsum : sumStakesWin w m.bets = winPoolOf m w := by
    cases w with
    | draw => exact absurd rfl hnd
    | above =>
      rw [(sumStakesWin_eq_dir m.bets).1, winPoolOf, if_pos rfl, hmatch.1]
    | below =>
      rw [(sumStakesWin_eq_dir m.bets).2, winPoolOf, if_neg (by intro hc; cases hc), hmatch.2]
  have htot : 0 ≤ marketTotal m := by
    rw [marketTotal, hmatch.1, hmatch.2]
    exact add_nonneg (sumStakesDir_nonneg _ _ hnn) (sumStakesDir_nonneg _ _ hnn)
  have hkey : 0 < winPoolOf m w →
      winPoolOf m w * perTonOf m w = marketTotal m * (98 / 100) := by
    intro hpos
    rw [perTonOf, if_pos hpos, mul_comm, div_mul_cancel₀ _ (ne_of_gt hpos),
      distributableOf, settleFeeOf]
    ring
  refine ⟨?_, ?_, ?_⟩
  · intro u
    rw [hfst, getBal_payWinners]
  · rw [hfst, ledgerSum_payWinners, hsum]
    by_cases hpos : 0 < winPoolOf m w
    · rw [hkey hpos]
      ring_nf
      exact le_refl _
    · rw [perTonOf, if_neg hpos]
      have : 0 ≤ marketTotal m * (98 / 100) := mul_nonneg htot (by norm_num)
      linarith
  · intro hpos
    rw [hfst, ledgerSum_payWinners, hsum, hkey hpos]

theorem settle_directional_payout_witness :
    ledgerSum (settleMarket []
        { id := 1, asset := "GIFTS", expiry := 900000, strike := 1000, entryCap := 1000,
          pools := ⟨10, 10⟩,
          bets := [⟨1, "u", .above, 10⟩, ⟨2, "v", .below, 10⟩],
          status := .opened, openedAt := 0, settleCap := none, feeCollected := none }
        (some 1050)).1
      = ledgerSum ([] : Ledger)
        + marketTotal
          { id := 1, asset := "GIFTS", expiry := 900000, strike := 1000, entryCap := 1000,
            pools := ⟨10, 10⟩,
            bets := [⟨1, "u", .above, 10⟩, ⟨2, "v", .below, 10⟩],
            status := .opened, openedAt := 0, settleCap := none, feeCollected := none }
          * (98 / 100) := by
  apply (settle_directional_payout _ _ (some 1050) .above rfl ?_ ?_ ?_ ?_).2.2 ?_
  · constructor <;> simp [sumStakesDir, reduceCtorEq]
  · intro b hb
    simp only [List.mem_cons, List.mem_singleton, List.not_mem_nil, or_false] at hb
    rcases hb with hb | hb <;> subst hb <;> norm_num
  · norm_num [settleWinner, computeTwapCap]
  · intro hc; cases hc
  · norm_num [winPoolOf]

/-- C3 counterexample: `credit` does not reject a negative amount — crediting
−5 to a balance of 3 silently changes the balance (to −2) instead of failing
with `InvalidAmount` and leaving it unchanged. -/
theorem credit_negative_not_rejected :
    getBal (credit [("u", (3 : ℚ))] "u" (some (-5))) "u" = -2
    ∧ ((-2 : ℚ) ≠ 3) := by
  constructor
  · norm_num [credit, getBal, mapGet, mapSet, numberOrZero]
  · norm_num

/-- C3 (amended): `credit` performs no validation at all: it adds
`Number(amount) || 0` to the balance, so any finite numeric amount —
non-negative or negative — is added as-is (a finite non-negative amount
increases the balance by exactly that amount, a negative amount decreases
it), and a NaN/non-numeric amount is coerced to 0, leaving the balance
unchanged; `credit` never fails. -/
theorem credit_unvalidated_add (l : Ledger) (u : UserId) (q : ℚ) :
    getBal (credit l u (some q)) u = getBal l u + q
    ∧ getBal (credit l u none) u = getBal l u := by
  constructor
  · rw [getBal_credit_self]
    simp [numberOrZero]
  · rw [getBal_credit_self]
    simp [numberOrZero]

/-- C4: `debit` fails with `InvalidAmount` exactly when the amount is ≤ 0,
fails with `InsufficientBalance` exactly when the amount is positive and the
current balance is below it, otherwise succeeds decreasing the balance by
exactly the amount (touching no other user); on every failure the ledger is
unchanged. -/
theorem debit_validation (l : Ledger) (u : UserId) (q : ℚ) :
    ((debit l u (some q)).1 = some .invalidAmount ↔ q ≤ 0)
    ∧ ((debit l u (some q)).1 = some .insufficientBalance ↔ 0 < q ∧ getBal l u < q)
    ∧ (0 < q → q ≤ getBal l u →
        (debit l u (some q)).1 = none
        ∧ getBal (debit l u (some q)).2 u = getBal l u - q
        ∧ ∀ x, x ≠ u → getBal (debit l u (some q)).2 x = getBal l x)
    ∧ ((debit l u (some q)).1 ≠ none → (debit l u (some q)).2 = l) := by
  by_cases h1 : q ≤ 0
  · refine ⟨by simp [debit, numberOrZero, h1], ?_, ?_, ?_⟩
    · simp only [debit, numberOrZero, if_pos h1]
      constructor
      · intro hc
        exact absurd (Option.some.inj hc) (by intro hc'; cases hc')
      · intro ⟨hq, _⟩
        exact absurd h1 (not_le.2 hq)
    · intro hq
      exact absurd h1 (not_le.2 hq)
    · intro _
      simp [debit, numberOrZero, h1]
  · have hq : 0 < q := not_le.1 h1
    by_cases h2 : getBal l u < q
    · refine ⟨?_, ?_, ?_, ?_⟩
      · simp only [debit, numberOrZero, if_neg h1, if_pos h2]
        constructor
        · intro hc
          exact absurd (Option.some.inj hc).symm (by intro hc'; cases hc')
        · intro hc
          exact absurd hc h1
      · simp [debit, numberOrZero, h1, h2, hq]
      · intro _ hle
        exact absurd h2 (not_lt.2 hle)
      · intro _
        simp [debit, numberOrZero, h1, h2]
    · refine ⟨?_, ?_, ?_, ?_⟩
      · simp [debit, numberOrZero, h1, h2]
      · constructor
        · intro hc
          simp [debit, numberOrZero, h1, h2] at hc
        · intro ⟨_, hlt⟩
          exact absurd hlt h2
      · intro _ _
        refine ⟨by simp [debit, numberOrZero, h1, h2], ?_, ?_⟩
        · simp [debit, numberOrZero, h1, h2, getBal_mapSet_self]
        · intro x hx
          simp [debit, numberOrZero, h1, h2, getBal_mapSet_ne l u x _ hx]
      · intro hc
        simp [debit, numberOrZero, h1, h2] at hc

theorem debit_validation_witness :
    (debit [("u", (10 : ℚ))] "u" (some 4)).1 = none
    ∧ getBal (debit [("u", (10 : ℚ))] "u" (some 4)).2 "u" = getBal [("u", (10 : ℚ))] "u" - 4 := by
  have h := (debit_validation [("u", (10 : ℚ))] "u" 4).2.2.1 (by norm_num)
    (by norm_num [getBal, mapGet])
  exact ⟨h.1, h.2.1⟩

/-- C5: a failed index fetch is treated as index 0, so a market created
while the provider fails has strike 0; settling an open market whose strike
is 0, or whose settle index is within 0.2% (relative) of a nonzero strike,
is a draw, and a draw credits every bet's full stake back to its owner, so
the disbursed total is the pre-fee `pools.above + pools.below`. -/
theorem draw_refund_full (idn : Nat) (asset : String) (expiry now : ℤ)
    (l : Ledger) (m : Market) (f : Option ℚ)
    (hop : m.status = .opened) (hmatch : PoolsMatch m)
    (hdraw : m.strike = 0
      ∨ (m.strike ≠ 0 ∧ |computeTwapCap f - m.strike| / |m.strike| < 2 / 1000)) :
    (newMarket idn asset expiry now none).strike = 0
    ∧ settleWinner m.strike (computeTwapCap f) = .draw
    ∧ ledgerSum (settleMarket l m f).1 = ledgerSum l + (m.pools.above + m.pools.below)
    ∧ ∀ u, getBal (settleMarket l m f).1 u = getBal l u + userStakes u m.bets := by
  have hdrw : settleWinner m.strike (computeTwapCap f) = .draw := by
    rcases hdraw with h0 | ⟨hne, hlt⟩
    · simp [settleWinner, h0]
    · rcases lt_trichotomy m.strike 0 with hneg | h0 | hpos
      · have hle : |computeTwapCap f - m.strike| / m.strike ≤ 0 :=
          div_nonpos_of_nonneg_of_nonpos (abs_nonneg _) hneg.le
        rw [settleWinner, if_neg hne, if_pos (lt_of_le_of_lt hle (by norm_num))]
      · exact absurd h0 hne
      · rw [abs_of_pos hpos] at hlt
        rw [settleWinner, if_neg hne, if_pos hlt]
  have hfst := settleMarket_fst_draw l m f hop hdrw
  refine ⟨by simp [newMarket, computeTwapCap], hdrw, ?_, ?_⟩
  · rw [hfst, ledgerSum_refundBets, hmatch.1, hmatch.2, sumStakes_eq_dirs]
  · intro u
    rw [hfst, getBal_refundBets]

theorem draw_refund_full_witness :
    ledgerSum (settleMarket []
        { id := 1, asset := "GIFTS", expiry := 900000, strike := 0, entryCap := 0,
          pools := ⟨30, 0⟩, bets := [⟨1, "u", .above, 30⟩],
          status := .opened, openedAt := 0, settleCap := none, feeCollected := none }
        none).1
      = ledgerSum ([] : Ledger) + (30 + 0) := by
  exact (draw_refund_full 1 "GIFTS" 900000 0 []
    { id := 1, asset := "GIFTS", expiry := 900000, strike := 0, entryCap := 0,
      pools := ⟨30, 0⟩, bets := [⟨1, "u", .above, 30⟩],
      status := .opened, openedAt := 0, settleCap := none, feeCollected := none }
    none rfl (by constructor <;> simp [sumStakesDir, reduceCtorEq]) (Or.inl rfl)).2.2.1

/-- C6: settlement is idempotent — settling an already-settled market
returns the ledger and the stored market unchanged; settling any market
leaves it settled, and an immediate second settlement (with any fetched
index) changes nothing, so `settleCap`/`feeCollected` are recorded exactly
once and the `open → settled` transition happens exactly once. -/
theorem settle_idempotent (l : Ledger) (m : Market) (f f' : Option ℚ) :
    (m.status = .settled → settleMarket l m f = (l, m))
    ∧ (settleMarket l m f).2.status = .settled
    ∧ settleMarket (settleMarket l m f).1 (settleMarket l m f).2 f' = settleMarket l m f := by
  refine ⟨settleMarket_of_settled l m f, settleMarket_snd_status l m f, ?_⟩
  rw [settleMarket_of_settled (settleMarket l m f).1 (settleMarket l m f).2 f'
    (settleMarket_snd_status l m f)]

theorem settle_idempotent_witness :
    settleMarket []
      { id := 1, asset := "GIFTS", expiry := 900000, strike := 1000, entryCap := 1000,
        pools := ⟨30, 0⟩, bets := [⟨1, "u", .above, 30⟩],
        status := .settled, openedAt := 0, settleCap := some 1050,
        feeCollected := some (3 / 5) }
      none
    = ([],
      { id := 1, asset := "GIFTS", expiry := 900000, strike := 1000, entryCap := 1000,
        pools := ⟨30, 0⟩, bets := [⟨1, "u", .above, 30⟩],
        status := .settled, openedAt := 0, settleCap := some 1050,
        feeCollected := some (3 / 5) }) :=
  (settle_idempotent []
    { id := 1, asset := "GIFTS", expiry := 900000, strike := 1000, entryCap := 1000,
      pools := ⟨30, 0⟩, bets := [⟨1, "u", .above, 30⟩],
      status := .settled, openedAt := 0, settleCap := some 1050,
      feeCollected := some (3 / 5) }
    none none).1 rfl

/-- C7 counterexample: a boundary request (`amount + dailyUsed` equal to the
daily limit) does not always succeed — with an empty ledger, a 500 TON
request against the default 500 TON daily limit and zero usage passes the
daily check but fails on the debit (`InsufficientBalance`). -/
theorem withdraw_boundary_can_fail :
    (walletWithdraw defaultConfig ⟨[], fun _ => [], []⟩ "u" "t" (some 500) 0).1
        = .error (.ledgerError .insufficientBalance)
    ∧ (500 : ℚ) + (getWithdrawUsage (fun _ => []) "u" 0).1 = defaultConfig.dailyLimit := by
  constructor
  · norm_num [walletWithdraw, getWithdrawUsage, usageSums, numberOrZero, defaultConfig,
      debit, getBal, mapGet]
    simp [reduceCtorEq]
  · norm_num [getWithdrawUsage, usageSums, defaultConfig]

/-- C7 (amended): for a valid positive request, the handler fails with
`DailyLimitExceeded` — reporting the current usage and remaining
allowance — exactly when `amount + dailyUsed` strictly exceeds the daily
limit; a request with `amount + dailyUsed` equal to the limit passes the
daily-limit check and succeeds provided the monthly limit also holds and the
balance covers the amount. -/
theorem withdraw_daily_limit_gate (cfg : WConfig) (s : WState) (u t : String)
    (q : ℚ) (now : ℤ) (hu : u ≠ "") (ht : t ≠ "") (hq : 0 < q) :
    ((walletWithdraw cfg s u t (some q) now).1 =
        .error (.dailyLimitExceeded cfg.dailyLimit (getWithdrawUsage s.wlog u now).1
          (max 0 (cfg.dailyLimit - (getWithdrawUsage s.wlog u now).1)))
      ↔ cfg.dailyLimit < q + (getWithdrawUsage s.wlog u now).1)
    ∧ (q + (getWithdrawUsage s.wlog u now).1 = cfg.dailyLimit →
        q + (getWithdrawUsage s.wlog u now).2 ≤ cfg.monthlyLimit →
        q ≤ getBal s.ledger u →
        ∃ ok, (walletWithdraw cfg s u t (some q) now).1 = .ok ok) := by
  have hq' : ¬ q ≤ 0 := not_le.2 hq
  have hval : ¬ (u = "" ∨ t = "" ∨ (some q : Option ℚ) = none ∨ q ≤ 0) := by
    push_neg
    exact ⟨hu, ht, by simp, hq⟩
  refine ⟨?_, ?_⟩
  · by_cases hd : cfg.dailyLimit < q + (getWithdrawUsage s.wlog u now).1
    · simp only [walletWithdraw, numberOrZero]
      rw [if_neg hval, if_pos hd]
      simp [hd]
    · simp only [walletWithdraw, numberOrZero]
      rw [if_neg hval, if_neg hd]
      by_cases hm : cfg.monthlyLimit < q + (getWithdrawUsage s.wlog u now).2
      · rw [if_pos hm]
        constructor
        · intro hc
          cases Except.error.inj hc
        · intro hc
          exact absurd hc hd
      · rw [if_neg hm]
        rcases hdeb : debit s.ledger u (some q) with ⟨e, l'⟩
        cases e with
        | none =>
          constructor
          · intro hc
            cases hc
          · intro hc
            exact absurd hc hd
        | some err =>
          constructor
          · intro hc
            cases Except.error.inj hc
          · intro hc
            exact absurd hc hd
  · intro hb hm hbal
    have hd' : ¬ cfg.dailyLimit < q + (getWithdrawUsage s.wlog u now).1 := by
      rw [← hb]
      exact lt_irrefl _
    have hm' : ¬ cfg.monthlyLimit < q + (getWithdrawUsage s.wlog u now).2 := not_lt.2 hm
    have hdeb : debit s.ledger u (some q) =
        (none, mapSet s.ledger u (getBal s.ledger u - q)) := by
      simp only [debit, numberOrZero]
      rw [if_neg hq', if_neg (not_lt.2 hbal)]
    simp only [walletWithdraw, numberOrZero]
    rw [if_neg hval, if_neg hd', if_neg hm', hdeb]
    exact ⟨_, rfl⟩

theorem withdraw_daily_limit_gate_witness :
    ∃ ok, (walletWithdraw defaultConfig ⟨[("u", 600)], fun _ => [], []⟩
      "u" "t" (some 500) 0).1 = .ok ok := by
  apply (withdraw_daily_limit_gate defaultConfig ⟨[("u", 600)], fun _ => [], []⟩
    "u" "t" 500 0 (by decide) (by decide) (by norm_num)).2
  · norm_num [getWithdrawUsage, usageSums, defaultConfig]
  · norm_num [getWithdrawUsage, usageSums, defaultConfig]
  · norm_num [getBal, mapGet]

/-- C8 counterexample: a market with a single 10 TON bet on `below`,
settled on outcome `above` (strike 100, settle index 200), has an empty
winning pool but records `feeCollected = 0.2 ≠ 0` — `winPool == 0` does not
imply `total == 0`. -/
theorem empty_winpool_fee_nonzero :
    settleWinner (placeBet (newMarket 1 "GIFTS" 600000 0 (some 100)) ⟨1, "u", .below, 10⟩).strike
        (computeTwapCap (some 200)) = .above
    ∧ winPoolOf (placeBet (newMarket 1 "GIFTS" 600000 0 (some 100)) ⟨1, "u", .below, 10⟩)
        .above = 0
    ∧ (settleMarket [] (placeBet (newMarket 1 "GIFTS" 600000 0 (some 100)) ⟨1, "u", .below, 10⟩)
        (some 200)).2.feeCollected = some (1 / 5)
    ∧ ((1 : ℚ) / 5) ≠ 0 := by
  refine ⟨?_, ?_, ?_, by norm_num⟩
  · norm_num [placeBet, newMarket, computeTwapCap, settleWinner, reduceCtorEq]
  · norm_num [placeBet, newMarket, winPoolOf, reduceCtorEq]
  · norm_num [settleMarket, placeBet, newMarket, computeTwapCap, settleWinner,
      settleFeeOf, marketTotal, reduceCtorEq]

/-- C8 (amended): settling an open market on a directional outcome with an
empty winning pool makes no payouts (the ledger is returned unchanged),
and records `feeCollected = total * 0.02` — which is 0 only when the total
pool is 0; an empty winning pool does not force `total == 0`, since the
losing pool may be nonempty. -/
theorem empty_winpool_no_payout (l : Ledger) (m : Market) (f : Option ℚ) (w : Winner)
    (hop : m.status = .opened) (hmatch : PoolsMatch m)
    (hpos : ∀ b ∈ m.bets, 0 < b.stakeTon)
    (hw : settleWinner m.strike (computeTwapCap f) = w) (hnd : w ≠ .draw)
    (hzero : winPoolOf m w = 0) :
    (settleMarket l m f).1 = l
    ∧ (settleMarket l m f).2.feeCollected = some (marketTotal m * (2 / 100)) := by
  have hfst := settleMarket_fst_dir l m f w hop hw hnd
  have hsum : sumStakesWin w m.bets = 0 := by
    cases w with
    | draw => exact absurd rfl hnd
    | above =>
      rw [(sumStakesWin_eq_dir m.bets).1, ← hmatch.1]
      rw [winPoolOf, if_pos rfl] at hzero
      exact hzero
    | below =>
      rw [(sumStakesWin_eq_dir m.bets).2, ← hmatch.2]
      rw [winPoolOf, if_neg (by intro hc; cases hc)] at hzero
      exact hzero
  refine ⟨?_, ?_⟩
  · rw [hfst, payWinners_of_sum_zero w _ m.bets l hpos hsum]
  · rw [settleMarket_snd_fee l m f hop]
    rfl

theorem empty_winpool_no_payout_witness :
    (settleMarket [] (placeBet (newMarket 1 "GIFTS" 600000 0 (some 100)) ⟨1, "u", .below, 10⟩)
      (some 200)).1 = [] := by
  apply (empty_winpool_no_payout []
    (placeBet (newMarket 1 "GIFTS" 600000 0 (some 100)) ⟨1, "u", .below, 10⟩)
    (some 200) .above rfl ?_ ?_ ?_ ?_ ?_).1
  · constructor <;> simp [placeBet, newMarket, sumStakesDir, reduceCtorEq, computeTwapCap]
  · intro b hb
    simp [placeBet, newMarket] at hb
    subst hb
    norm_num
  · norm_num [placeBet, newMarket, computeTwapCap, settleWinner, reduceCtorEq]
  · intro hc; cases hc
  · norm_num [placeBet, newMarket, winPoolOf, reduceCtorEq]

/-- C9 counterexample: processing an already-completed withdrawal does not
fail with `AlreadyProcessed` — the first (effective) handler returns a
success response with the stored entry and changes nothing. -/
theorem process_completed_returns_success :
    processWithdrawal true [] [⟨"w1", "u", 10, 1 / 2, 19 / 2, "addr", .completed, 0, none, none⟩]
        "w1" none 5
      = (.ok ⟨"w1", "u", 10, 1 / 2, 19 / 2, "addr", .completed, 0, none, none⟩, [],
         [⟨"w1", "u", 10, 1 / 2, 19 / 2, "addr", .completed, 0, none, none⟩]) := by
  norm_num [processWithdrawal, processQueue]

/-- C9 (amended): the effective `/api/admin/withdrawals/process` handler
(the first of the two route definitions; the second, which would fail with
`AlreadyProcessed`, is shadowed) never touches the ledger; it fails with
`NotFound` exactly when no queue entry has the requested id; it returns the
stored entry as a success, unchanged, when that entry is already completed;
and it transitions a pending entry to completed (recording the transaction
reference and completion time) when it is pending. -/
theorem process_withdrawal_behavior (l : Ledger) (queue : List WReq) (id : String)
    (tx : Option String) (now : ℤ) :
    (∀ a, (processWithdrawal a l queue id tx now).2.1 = l)
    ∧ ((∀ w ∈ queue, w.id ≠ id) →
        processWithdrawal true l queue id tx now = (.notFound, l, queue))
    ∧ (∀ pre w post, queue = pre ++ w :: post → (∀ x ∈ pre, x.id ≠ id) → w.id = id →
        (w.status = .completed →
          processWithdrawal true l queue id tx now = (.ok w, l, queue))
        ∧ (w.status = .pending →
          processWithdrawal true l queue id tx now =
            (.ok { w with status := .completed, txHash := tx, completedAt := some now }, l,
             pre ++ { w with status := .completed, txHash := tx, completedAt := some now }
               :: post))) := by
  refine ⟨?_, ?_, ?_⟩
  · intro a
    cases a <;> simp [processWithdrawal]
  · intro h
    simp [processWithdrawal, processQueue_notFound queue id tx now h]
  · intro pre w post hq hpre hid
    constructor
    · intro hst
      rw [hq]
      simp [processWithdrawal, processQueue_found_completed pre post w id tx now hpre hid hst]
    · intro hst
      rw [hq]
      simp [processWithdrawal, processQueue_found_pending pre post w id tx now hpre hid hst]

theorem process_withdrawal_behavior_witness :
    processWithdrawal true [] [⟨"w1", "u", 10, 1 / 2, 19 / 2, "addr", .pending, 0, none, none⟩]
        "w1" (some "tx9") 5
      = (.ok ⟨"w1", "u", 10, 1 / 2, 19 / 2, "addr", .completed, 0, some "tx9", some 5⟩, [],
         [⟨"w1", "u", 10, 1 / 2, 19 / 2, "addr", .completed, 0, some "tx9", some 5⟩]) := by
  have h := ((process_withdrawal_behavior []
    [⟨"w1", "u", 10, 1 / 2, 19 / 2, "addr", .pending, 0, none, none⟩]
    "w1" (some "tx9") 5).2.2 []
    ⟨"w1", "u", 10, 1 / 2, 19 / 2, "addr", .pending, 0, none, none⟩ []
    rfl (by intro x hx; cases hx) rfl).2 rfl
  simpa using h

/-- C10: a withdrawal request that passes validation and both limit checks
but whose gross amount exceeds the user's balance fails atomically: the
debit raises `InsufficientBalance`, the handler returns the corresponding
error, and the entire state — ledger, withdrawal log and queue — is
returned unchanged, so a failed withdrawal never counts toward later usage
computations. -/
theorem withdraw_insufficient_atomic (cfg : WConfig) (s : WState) (u t : String)
    (q : ℚ) (now : ℤ) (hu : u ≠ "") (ht : t ≠ "") (hq : 0 < q)
    (hd : q + (getWithdrawUsage s.wlog u now).1 ≤ cfg.dailyLimit)
    (hm : q + (getWithdrawUsage s.wlog u now).2 ≤ cfg.monthlyLimit)
    (hb : getBal s.ledger u < q) :
    walletWithdraw cfg s u t (some q) now
      = (.error (.ledgerError .insufficientBalance), s) := by
  have hq' : ¬ q ≤ 0 := not_le.2 hq
  have hval : ¬ (u = "" ∨ t = "" ∨ (some q : Option ℚ) = none ∨ q ≤ 0) := by
    push_neg
    exact ⟨hu, ht, by simp, hq⟩
  have hdeb : debit s.ledger u (some q) = (some .insufficientBalance, s.ledger) := by
    simp only [debit, numberOrZero]
    rw [if_neg hq', if_pos hb]
  simp only [walletWithdraw, numberOrZero]
  rw [if_neg hval, if_neg (not_lt.2 hd), if_neg (not_lt.2 hm), hdeb]

theorem withdraw_insufficient_atomic_witness :
    walletWithdraw defaultConfig ⟨[], fun _ => [], []⟩ "u" "t" (some 5) 0
      = (.error (.ledgerError .insufficientBalance), ⟨[], fun _ => [], []⟩) := by
  apply withdraw_insufficient_atomic defaultConfig ⟨[], fun _ => [], []⟩ "u" "t" 5 0
    (by decide) (by decide) (by norm_num)
  · norm_num [getWithdrawUsage, usageSums, defaultConfig]
  · norm_num [getWithdrawUsage, usageSums, defaultConfig]
  · norm_num [getBal, mapGet]

/-! ### Sanity checks of the embedding on the spec's worked scenarios -/

/-- Spec §8 scenario: stake 30 above at strike 1000, settle at 1050 →
outcome `above`, payout 29.4, balance 100 → 99.4. -/
example :
    getBal (settleMarket [("u", (70 : ℚ))]
      (placeBet (newMarket 1 "GIFTS" 900000 0 (some 1000)) ⟨1, "u", .above, 30⟩)
      (some 1050)).1 "u" = 994 / 10 := by
  norm_num [settleMarket, placeBet, newMarket, computeTwapCap, settleWinner, payWinners,
    refundBets, credit, getBal, mapGet, mapSet, numberOrZero, perTonOf, winPoolOf,
    distributableOf, settleFeeOf, marketTotal, Direction.winnerMatches]

/-- Spec §8 scenario: strike 1000, settle 1001 (inside the 0.2% band) →
draw, full refund. -/
example :
    getBal (settleMarket [("u", (70 : ℚ))]
      (placeBet (newMarket 1 "GIFTS" 900000 0 (some 1000)) ⟨1, "u", .above, 30⟩)
      (some 1001)).1 "u" = 100 := by
  norm_num [settleMarket, placeBet, newMarket, computeTwapCap, settleWinner, payWinners,
    refundBets, credit, getBal, mapGet, mapSet, numberOrZero, perTonOf, winPoolOf,
    distributableOf, settleFeeOf, marketTotal, Direction.winnerMatches]

end CryptoBot
